import Mathlib

/-!
Shallow embedding of the `!roms` query/delivery pipeline of `src/main.go`
(functions `parseArgs`, `buildSQLQuery`, `handleCommand`, `htmlEscape`),
together with proofs of the specification's testable properties.

Conventions:
  * Go byte strings are modelled as Lean `String`s processed per character;
    every delimiter the code inspects (space, quotes, `-`) is a single ASCII
    byte, so byte-level and character-level processing agree.
  * Matrix event identifiers are modelled as `Nat`.
  * The transport's response to the `k`-th batch send is an oracle
    `Nat → Option Nat` (`some mid` = success returning event id `mid`,
    `none` = send failure).
  * `LIKE '%' || t || '%'` is modelled as a literal substring test
    (wildcard metacharacters inside terms are not modelled).
-/

/-- The straight double-quote character `"` (byte 34). -/
def dquote : Char := Char.ofNat 34

/-- The straight single-quote character (byte 39). -/
def squote : Char := Char.ofNat 39

/-- State of `parseArgs`'s scanning loop: accumulated tokens, current token
bytes, whether inside a quoted span, and the quote character that opened it. -/
structure ParseState where
  tokens : List String
  curr : List Char
  inQuote : Bool
  quoteChar : Char
deriving DecidableEq

/-- One iteration of `parseArgs`'s loop body over the next input character. -/
def parseStep (st : ParseState) (c : Char) : ParseState :=
  if c = dquote ∨ c = squote then
    if st.inQuote ∧ c = st.quoteChar then
      if st.curr ≠ [] then
        { st with tokens := st.tokens ++ [String.mk st.curr], curr := [], inQuote := false }
      else
        { st with inQuote := false }
    else if ¬ st.inQuote then
      { st with inQuote := true, quoteChar := c }
    else
      { st with curr := st.curr ++ [c] }
  else if c = ' ' ∧ ¬ st.inQuote then
    if st.curr ≠ [] then
      { st with tokens := st.tokens ++ [String.mk st.curr], curr := [] }
    else
      st
  else
    { st with curr := st.curr ++ [c] }

/-- Final flush of `parseArgs`: the trailing partial token is kept if non-empty. -/
def finishTokens (fin : ParseState) : List String :=
  if fin.curr ≠ [] then fin.tokens ++ [String.mk fin.curr] else fin.tokens

/-- Tokenisation phase of `parseArgs`: run the scanner over the input and
flush the trailing partial token. -/
def tokenize (query : String) : List String :=
  finishTokens (query.data.foldl parseStep ⟨[], [], false, Char.ofNat 0⟩)

/-- Classification phase of `parseArgs`: a token starting with `-` goes to the
negatives with the marker stripped (`t[1:]`), any other non-empty token is a
positive; empty tokens are skipped. -/
def classifyStep (acc : List String × List String) (t : String) :
    List String × List String :=
  match t.data with
  | [] => acc
  | c :: rest =>
    if c = '-' then (acc.1, acc.2 ++ [String.mk rest]) else (acc.1 ++ [t], acc.2)

/-- Go `parseArgs`: quoted, unquoted and `-`-negated terms. -/
def parseArgs (query : String) : List String × List String :=
  (tokenize query).foldl classifyStep ([], [])

/-- A materialised catalog row, as in `handleCommand`'s local `resultRow`
struct (`SELECT section, console, file, rawurl FROM files`). -/
structure resultRow where
  Section : String
  Console : String
  File : String
  Rawurl : String
deriving DecidableEq

/-- Case-insensitive substring test: `LOWER(field) LIKE '%' || LOWER(term) || '%'`. -/
def likeContains (term field : String) : Bool :=
  decide (term.toLower.data <:+: field.toLower.data)

/-- A positive term's clause in `buildSQLQuery`:
`(LOWER(section) LIKE ? OR LOWER(console) LIKE ? OR LOWER(file) LIKE ?)`. -/
def posMatch (p : String) (r : resultRow) : Bool :=
  likeContains p r.Section || likeContains p r.Console || likeContains p r.File

/-- A negative term's clause in `buildSQLQuery`:
`(LOWER(section) NOT LIKE ? AND LOWER(console) NOT LIKE ? AND LOWER(file) NOT LIKE ?)`. -/
def negMatch (n : String) (r : resultRow) : Bool :=
  !likeContains n r.Section && !likeContains n r.Console && !likeContains n r.File

/-- The conjunction of all clauses of `buildSQLQuery`'s WHERE part. -/
def matchesRow (positives negatives : List String) (r : resultRow) : Bool :=
  positives.all (fun p => posMatch p r) && negatives.all (fun n => negMatch n r)

/-- Structural lexicographic character-list comparison; agrees with Go's
byte-wise string `<` (UTF-8 byte order equals codepoint order). -/
def charsLt : List Char → List Char → Bool
  | [], [] => false
  | [], _ :: _ => true
  | _ :: _, [] => false
  | a :: as, b :: bs => if a < b then true else if b < a then false else charsLt as bs

/-- Go's `<` on strings (byte/codepoint lexicographic order). -/
def strLt (s t : String) : Bool := charsLt s.data t.data

/-- The strict comparator of `handleCommand`'s `sort.Slice` call
(section, then console, then file). -/
def rowLt (a b : resultRow) : Bool :=
  if a.Section ≠ b.Section then strLt a.Section b.Section
  else if a.Console ≠ b.Console then strLt a.Console b.Console
  else strLt a.File b.File

/-- Non-strict order induced by `rowLt`; `sort.Slice` guarantees consecutive
output elements `a, b` satisfy `¬ rowLt b a`. -/
def rowLe (a b : resultRow) : Bool := !(rowLt b a)

/-- The comparator's non-strict order as a decidable relation. -/
def RowLe (a b : resultRow) : Prop := rowLe a b = true

instance : DecidableRel RowLe := fun a b => by unfold RowLe; infer_instance

/-- In-memory sort of the results (also models `ORDER BY section, console, file`,
whose default BINARY collation agrees with Go's byte-wise string order).
Go's `sort.Slice` guarantees only a permutation whose consecutive elements
satisfy `¬ rowLt b a`, i.e. sorted under `rowLe`; insertion sort satisfies
exactly that contract. -/
def sortRows (l : List resultRow) : List resultRow := List.insertionSort RowLe l

/-- Sorting does not change the number of rows. -/
theorem sortRows_length (l : List resultRow) : (sortRows l).length = l.length :=
  (List.perm_insertionSort RowLe l).length_eq

/-- The query built by `buildSQLQuery` and executed against the catalog:
filter by all clauses, sort, and cap at `maxResults + 1` rows
(`LIMIT ?` with argument `maxResults+1`). -/
def runQuery (catalog : List resultRow) (positives negatives : List String)
    (maxResults : Nat) : List resultRow :=
  (sortRows (catalog.filter (matchesRow positives negatives))).take (maxResults + 1)

/-- Character-wise expansion performed by Go's `strings.NewReplacer` in
`htmlEscape`; all five patterns are distinct single characters, so the
one-pass replacer is an independent per-character substitution. -/
def escChar (c : Char) : List Char :=
  if c = '&' then "&amp;".data
  else if c = '<' then "&lt;".data
  else if c = '>' then "&gt;".data
  else if c = dquote then "&quot;".data
  else if c = squote then "&#39;".data
  else [c]

/-- Expansion of `escChar` over a character list. -/
def escapeList : List Char → List Char
  | [] => []
  | c :: cs => escChar c ++ escapeList cs

/-- Go `htmlEscape`. -/
def htmlEscape (s : String) : String := String.mk (escapeList s.data)

/-- One plain-text line per record: `"%s - %s - %s\n"`. -/
def plainLine (r : resultRow) : String :=
  r.Section ++ " - " ++ r.Console ++ " - " ++ r.File ++ "\n"

/-- One HTML line per record:
`"%s - %s - <a href=\"%s\">%s</a><br>"` with escaped fields and the raw URL. -/
def htmlLine (r : resultRow) : String :=
  htmlEscape r.Section ++ " - " ++ htmlEscape r.Console ++ " - <a href=\"" ++
    r.Rawurl ++ "\">" ++ htmlEscape r.File ++ "</a><br>"

/-- Plain body of a batch message. -/
def plainBody (batch : List resultRow) : String := String.join (batch.map plainLine)

/-- HTML body of a batch message. -/
def htmlBody (batch : List resultRow) : String := String.join (batch.map htmlLine)

/-- The success reaction key `✅️`. -/
def okKey : String := "✅️"

/-- The rejection reaction key `❌️`. -/
def rejectKey : String := "❌️"

/-- An observable side effect of `handleCommand` on the chat transport. -/
inductive BotAction where
  /-- `client.SendText` (plain text, no relation). -/
  | sendText (body : String)
  /-- An `m.annotation` reaction on `target`. -/
  | reaction (target : Nat) (key : String)
  /-- A plain reply (`m.in_reply_to` only), as used for the overflow notice. -/
  | replyMsg (target : Nat) (body : String)
  /-- A batch message threaded under `threadRoot`, replying to `replyTo`. -/
  | batchMsg (threadRoot replyTo : Nat) (plain html : String) (rows : List resultRow)
deriving DecidableEq

/-- Thread root carried by a batch message, if the action is one. -/
def BotAction.threadRoot? : BotAction → Option Nat
  | .batchMsg root _ _ _ _ => some root
  | _ => none

/-- Reply target carried by a batch message, if the action is one. -/
def BotAction.replyTo? : BotAction → Option Nat
  | .batchMsg _ prev _ _ _ => some prev
  | _ => none

/-- Rows carried by a batch message, if the action is one. -/
def BotAction.rows? : BotAction → Option (List resultRow)
  | .batchMsg _ _ _ _ rows => some rows
  | _ => none

/-- Batch partition computed by `handleCommand`'s delivery loop
(`for batchStart := 0; batchStart < len(results); batchStart += batchSize`,
`batch := results[batchStart:batchEnd]`). The Go loop does not terminate for
`batchSize = 0`; that case is defined as `[]` here and is never used, since
`handleCommand` fixes `batchSize = 100`. -/
def chunks (batchSize : Nat) (l : List resultRow) : List (List resultRow) :=
  if h : l.isEmpty ∨ batchSize = 0 then []
  else l.take batchSize :: chunks batchSize (l.drop batchSize)
termination_by l.length
decreasing_by
  push_neg at h
  simp only [List.length_drop]
  exact Nat.sub_lt (List.length_pos.mpr (by simpa using h.1)) (Nat.pos_of_ne_zero h.2)

/-- The batch-sending loop of `handleCommand`: each iteration sends the next
batch with thread root `root` and reply target `prev`; on success the reply
target becomes the returned event id, on failure the loop breaks. `oracle k`
is the transport's response to the `k`-th send of this run. -/
def deliverLoop (root : Nat) (oracle : Nat → Option Nat) :
    List (List resultRow) → Nat → Nat → List BotAction
  | [], _, _ => []
  | b :: bs, prev, k =>
    BotAction.batchMsg root prev (plainBody b) (htmlBody b) b ::
      (match oracle k with
       | some mid => deliverLoop root oracle bs mid (k + 1)
       | none => [])

/-- Result-delivery phase of `handleCommand`: overflow check and notice, or
success reaction followed by the batch loop seeded with the trigger id. -/
def deliverActions (maxResults batchSize : Nat) (results : List resultRow)
    (eventID : Nat) (oracle : Nat → Option Nat) : List BotAction :=
  if results.length > maxResults then
    [BotAction.reaction eventID rejectKey,
     BotAction.replyMsg eventID ("Too many results: " ++ toString results.length)]
  else
    BotAction.reaction eventID okKey ::
      deliverLoop eventID oracle (chunks batchSize results) eventID 0

/-- The `!roms` branch of `handleCommand`, given the outcome of the storage
query (`Except.error` covers both the `db.Query` and the `rows.Err()` error
exits, which send `"Search error: " + err` and return). -/
def handleRoms (maxResults batchSize : Nat)
    (queryResult : Except String (List resultRow)) (eventID : Nat)
    (oracle : Nat → Option Nat) : List BotAction :=
  match queryResult with
  | .error e => [BotAction.sendText ("Search error: " ++ e)]
  | .ok rows => deliverActions maxResults batchSize (sortRows rows) eventID oracle

/-- Full `!roms` pipeline against an in-memory catalog; `handleCommand`
instantiates `maxResults = 1000`, `batchSize = 100`. -/
def romsCommand (maxResults batchSize : Nat) (catalog : List resultRow)
    (positives negatives : List String) (eventID : Nat)
    (oracle : Nat → Option Nat) : List BotAction :=
  handleRoms maxResults batchSize
    (.ok (runQuery catalog positives negatives maxResults)) eventID oracle

/-! ### Helper lemmas about the term parser -/

/-- A string built from a non-empty character list is non-empty. -/
theorem mk_ne_empty {l : List Char} (h : l ≠ []) : String.mk l ≠ "" := by
  intro hc
  exact h (congrArg String.data hc)

/-- One scanner step either leaves the token list unchanged or flushes the
(non-empty) current token onto it. -/
theorem parseStep_tokens (st : ParseState) (c : Char) :
    (parseStep st c).tokens = st.tokens ∨
    (st.curr ≠ [] ∧ (parseStep st c).tokens = st.tokens ++ [String.mk st.curr]) := by
  unfold parseStep
  split_ifs <;> simp_all

/-- Scanning preserves the invariant that all flushed tokens are non-empty. -/
theorem foldl_parseStep_tokens_nonempty (cs : List Char) (st : ParseState)
    (h : ∀ t ∈ st.tokens, t ≠ "") :
    ∀ t ∈ (cs.foldl parseStep st).tokens, t ≠ "" := by
  induction cs generalizing st with
  | nil => exact h
  | cons c cs ih =>
    refine ih _ ?_
    rcases parseStep_tokens st c with hh | ⟨hne, hh⟩
    · rw [hh]; exact h
    · rw [hh]
      intro t ht
      rcases List.mem_append.mp ht with h1 | h2
      · exact h t h1
      · rw [List.mem_singleton.mp h2]
        exact mk_ne_empty hne

/-- Every token produced by `finishTokens` is an already-flushed token or the
non-empty trailing token. -/
theorem mem_finishTokens (fin : ParseState) :
    ∀ t ∈ finishTokens fin, t ∈ fin.tokens ∨ (fin.curr ≠ [] ∧ t = String.mk fin.curr) := by
  intro t ht
  unfold finishTokens at ht
  split_ifs at ht with hc
  · rcases List.mem_append.mp ht with h1 | h2
    · exact Or.inl h1
    · exact Or.inr ⟨hc, List.mem_singleton.mp h2⟩
  · exact Or.inl ht

/-- Every token of `tokenize` is non-empty. -/
theorem tokenize_nonempty (q : String) : ∀ t ∈ tokenize q, t ≠ "" := by
  intro t ht
  have base := foldl_parseStep_tokens_nonempty q.data ⟨[], [], false, Char.ofNat 0⟩
    (by intro t ht; simp at ht)
  rcases mem_finishTokens _ t ht with h1 | ⟨hne, he⟩
  · exact base t h1
  · rw [he]; exact mk_ne_empty hne

/-- Positives produced by classification are tokens with a non-`-` head, so
their character data is non-empty (modulo the accumulator). -/
theorem foldl_classify_pos (ts : List String) (acc : List String × List String) :
    ∀ p ∈ (ts.foldl classifyStep acc).1, p ∈ acc.1 ∨ p.data ≠ [] := by
  induction ts generalizing acc with
  | nil => intro p hp; exact Or.inl hp
  | cons t ts ih =>
    intro p hp
    rcases ih (classifyStep acc t) p hp with h | h
    · revert h
      unfold classifyStep
      cases hdata : t.data with
      | nil => intro h; exact Or.inl h
      | cons c rest =>
        intro h
        by_cases hc : c = '-'
        · simp only [hc, if_pos rfl] at h
          exact Or.inl h
        · simp only [if_neg hc] at h
          rcases List.mem_append.mp h with h1 | h2
          · exact Or.inl h1
          · right
            rw [List.mem_singleton.mp h2, hdata]
            simp
    · exact Or.inr h

/-- Negatives produced by classification come from tokens starting with `-`,
with the marker stripped (modulo the accumulator). -/
theorem foldl_classify_neg (ts : List String) (acc : List String × List String) :
    ∀ n ∈ (ts.foldl classifyStep acc).2, n ∈ acc.2 ∨
      ∃ t ∈ ts, ∃ rest, t.data = '-' :: rest ∧ n = String.mk rest := by
  induction ts generalizing acc with
  | nil => intro n hn; exact Or.inl hn
  | cons t ts ih =>
    intro n hn
    rcases ih (classifyStep acc t) n hn with h | ⟨t', ht', rest, hh, he⟩
    · revert h
      unfold classifyStep
      cases hdata : t.data with
      | nil => intro h; exact Or.inl h
      | cons c rest =>
        intro h
        by_cases hc : c = '-'
        · simp only [hc, if_pos rfl] at h
          rcases List.mem_append.mp h with h1 | h2
          · exact Or.inl h1
          · right
            exact ⟨t, List.mem_cons_self t ts, rest, by rw [hdata, hc], List.mem_singleton.mp h2⟩
        · simp only [if_neg hc] at h
          exact Or.inl h
    · exact Or.inr ⟨t', List.mem_cons_of_mem t ht', rest, hh, he⟩

/-! ### Claims about the term parser (C2, C10) -/

/-- C2 counterexample: the input `"-"` produces the empty negative term, so it
is not the case that every negative term is non-empty. -/
theorem parse_lone_dash_empty_negative :
    parseArgs "-" = ([], [""]) ∧ "" ∈ (parseArgs "-").2 :=
  ⟨by decide, by decide⟩

/-- C2 (amended): every token is non-empty, hence every positive term is
non-empty; a negative term can only be empty when the token was the lone
marker `"-"`. -/
theorem parse_terms_nonempty (q : String) :
    (∀ t ∈ tokenize q, t ≠ "") ∧
    (∀ p ∈ (parseArgs q).1, p ≠ "") ∧
    (∀ n ∈ (parseArgs q).2, n = "" → "-" ∈ tokenize q) := by
  refine ⟨tokenize_nonempty q, ?_, ?_⟩
  · intro p hp
    rcases foldl_classify_pos (tokenize q) ([], []) p hp with h | h
    · simp at h
    · intro hc
      rw [hc] at h
      exact h rfl
  · intro n hn hne
    rcases foldl_classify_neg (tokenize q) ([], []) n hn with h | ⟨t, ht, rest, hdata, he⟩
    · simp at h
    · have hrest : rest = [] := by
        have := congrArg String.data (he ▸ hne)
        simpa using this
      have : t = "-" := by
        cases t
        simp only at hdata
        rw [hrest] at hdata
        rw [hdata]
      rw [← this]
      exact ht

/-- C2 witness: on the input `"ab"` the positive term `"ab"` is produced and is
non-empty. -/
theorem parse_terms_nonempty_witness :
    "ab" ∈ (parseArgs "ab").1 ∧ "ab" ≠ "" :=
  ⟨by decide, (parse_terms_nonempty "ab").2.1 "ab" (by decide)⟩

/-- C10: a closing quote immediately flushes the current token (even without a
following space), an opening quote in the middle of a token does not flush,
and concretely `parseArgs "a\"b c\"d" = (["ab c", "d"], [])`. -/
theorem parse_quote_token_boundaries :
    (parseArgs "a\"b c\"d" = (["ab c", "d"], [])) ∧
    (∀ (ts : List String) (cur : List Char) (qc : Char),
      (qc = dquote ∨ qc = squote) → cur ≠ [] →
      parseStep ⟨ts, cur, true, qc⟩ qc = ⟨ts ++ [String.mk cur], [], false, qc⟩) ∧
    (∀ (st : ParseState) (c : Char),
      (c = dquote ∨ c = squote) → st.inQuote = false →
      parseStep st c = { st with inQuote := true, quoteChar := c }) := by
  refine ⟨by decide, ?_, ?_⟩
  · intro ts cur qc hq hcur
    unfold parseStep
    rw [if_pos hq]
    rw [if_pos ⟨rfl, rfl⟩]
    rw [if_pos hcur]
  · intro st c hq hinq
    unfold parseStep
    rw [if_pos hq]
    rw [if_neg (by simp [hinq])]
    rw [if_pos (by simp [hinq])]

/-- C10 witness: closing a double quote right before `d` flushes the pending
token `"a"`, and an opening quote mid-token keeps the pending token. -/
theorem parse_quote_token_boundaries_witness :
    parseStep ⟨[], ['a'], true, dquote⟩ dquote = ⟨[String.mk ['a']], [], false, dquote⟩ ∧
    parseStep ⟨[], ['a'], false, Char.ofNat 0⟩ dquote = ⟨[], ['a'], true, dquote⟩ :=
  ⟨parse_quote_token_boundaries.2.1 [] ['a'] dquote (Or.inl rfl) (by decide),
   parse_quote_token_boundaries.2.2 ⟨[], ['a'], false, Char.ofNat 0⟩ dquote (Or.inl rfl) rfl⟩

/-! ### Helper lemmas about the query and the delivery loop -/

/-- A row used as concrete input in witnesses. -/
def wRow : resultRow := ⟨"s", "c", "f", "u"⟩

/-- Filtering by a stronger predicate yields at most as many rows. -/
theorem length_filter_mono {p q : resultRow → Bool} (l : List resultRow)
    (h : ∀ r, p r = true → q r = true) :
    (l.filter p).length ≤ (l.filter q).length := by
  rw [← List.countP_eq_length_filter, ← List.countP_eq_length_filter]
  exact List.countP_mono_left (fun x _ hx => h x hx)

/-- A row matching the query with one more positive term matches the original query. -/
theorem matchesRow_pos_append (pos neg : List String) (p : String) (r : resultRow)
    (h : matchesRow (pos ++ [p]) neg r = true) : matchesRow pos neg r = true := by
  simp only [matchesRow, List.all_append, List.all_cons, List.all_nil, Bool.and_true,
    Bool.and_eq_true] at *
  tauto

/-- A row matching the query with one more negative term matches the original query. -/
theorem matchesRow_neg_append (pos neg : List String) (n : String) (r : resultRow)
    (h : matchesRow pos (neg ++ [n]) r = true) : matchesRow pos neg r = true := by
  simp only [matchesRow, List.all_append, List.all_cons, List.all_nil, Bool.and_true,
    Bool.and_eq_true] at *
  tauto

/-- The number of rows returned by the capped query. -/
theorem runQuery_length (catalog : List resultRow) (pos neg : List String) (mR : Nat) :
    (runQuery catalog pos neg mR).length =
      min (mR + 1) ((catalog.filter (matchesRow pos neg)).length) := by
  simp [runQuery, List.length_take, sortRows_length]

/-- The empty-batch list produced from no results. -/
theorem chunks_nil (bS : Nat) : chunks bS [] = [] := by
  rw [chunks.eq_def]
  simp

/-- Unfolding of the batch partition on a non-empty result list. -/
theorem chunks_cons (bS : Nat) (hb : 0 < bS) (l : List resultRow) (hl : l ≠ []) :
    chunks bS l = l.take bS :: chunks bS (l.drop bS) := by
  rw [chunks.eq_def]
  rw [dif_neg (by simp [hl]; omega)]

/-! ### Claim C3: query monotonicity -/

/-- C3: for a fixed catalog, appending one positive term never increases the
size of the capped result set, and neither does appending one negative term. -/
theorem runQuery_monotone (catalog : List resultRow) (pos neg : List String)
    (p n : String) (mR : Nat) :
    (runQuery catalog (pos ++ [p]) neg mR).length ≤ (runQuery catalog pos neg mR).length ∧
    (runQuery catalog pos (neg ++ [n]) mR).length ≤ (runQuery catalog pos neg mR).length := by
  constructor
  · rw [runQuery_length, runQuery_length]
    exact min_le_min le_rfl
      (length_filter_mono catalog (fun r => matchesRow_pos_append pos neg p r))
  · rw [runQuery_length, runQuery_length]
    exact min_le_min le_rfl
      (length_filter_mono catalog (fun r => matchesRow_neg_append pos neg n r))

/-! ### Claim C6: storage-error handling -/

/-- C6: if the storage query fails, exactly one plain-text error reply is sent
and nothing else (no reaction, no batch); a query returning zero rows is not an
error and takes the success path (success reaction, no batch). -/
theorem handleRoms_query_error (mR bS eid : Nat) (e : String) (orc : Nat → Option Nat) :
    (handleRoms mR bS (Except.error e) eid orc =
      [BotAction.sendText ("Search error: " ++ e)]) ∧
    (handleRoms mR bS (Except.ok []) eid orc = [BotAction.reaction eid okKey]) := by
  constructor
  · rfl
  · show deliverActions mR bS (sortRows []) eid orc = _
    have h0 : sortRows ([] : List resultRow) = [] := by simp [sortRows]
    rw [h0]
    unfold deliverActions
    rw [if_neg (by simp)]
    rw [chunks_nil]
    rfl

/-! ### Claim C4: thread linkage of the batch messages -/

/-- Thread linkage of the delivery loop, generalised over the seed reply
target and send counter. -/
theorem deliverLoop_linkage_aux (root : Nat) (orc : Nat → Option Nat)
    (batches : List (List resultRow)) : ∀ (prev k : Nat),
    (∀ a ∈ deliverLoop root orc batches prev k, a.threadRoot? = some root) ∧
    (∀ a, (deliverLoop root orc batches prev k)[0]? = some a → a.replyTo? = some prev) ∧
    (∀ i a, (deliverLoop root orc batches prev k)[i + 1]? = some a →
      a.replyTo? = orc (k + i)) := by
  induction batches with
  | nil =>
    intro prev k
    exact ⟨by simp [deliverLoop], by simp [deliverLoop], by simp [deliverLoop]⟩
  | cons b bs ih =>
    intro prev k
    refine ⟨?_, ?_, ?_⟩
    · intro a ha
      simp only [deliverLoop] at ha
      rcases List.mem_cons.mp ha with h | h
      · rw [h]; rfl
      · cases horc : orc k with
        | some mid =>
          rw [horc] at h
          exact (ih mid (k + 1)).1 a h
        | none =>
          rw [horc] at h
          simp at h
    · intro a ha
      simp only [deliverLoop, List.getElem?_cons_zero, Option.some.injEq] at ha
      rw [← ha]
      rfl
    · intro i a ha
      simp only [deliverLoop, List.getElem?_cons_succ] at ha
      cases horc : orc k with
      | none =>
        rw [horc] at ha
        simp at ha
      | some mid =>
        rw [horc] at ha
        cases i with
        | zero =>
          have := (ih mid (k + 1)).2.1 a ha
          rw [this, Nat.add_zero, horc]
        | succ j =>
          have := (ih mid (k + 1)).2.2 j a ha
          rw [this]
          congr 1
          omega

/-- C4: every batch message is threaded under the trigger message; the first
batch replies to the trigger message, and batch `i+1` replies to exactly the
event id returned by the transport for the send of batch `i`. -/
theorem deliverLoop_thread_linkage (root : Nat) (orc : Nat → Option Nat)
    (batches : List (List resultRow)) :
    (∀ a ∈ deliverLoop root orc batches root 0, a.threadRoot? = some root) ∧
    (∀ a, (deliverLoop root orc batches root 0)[0]? = some a → a.replyTo? = some root) ∧
    (∀ i a, (deliverLoop root orc batches root 0)[i + 1]? = some a →
      a.replyTo? = orc i) := by
  obtain ⟨h1, h2, h3⟩ := deliverLoop_linkage_aux root orc batches root 0
  refine ⟨h1, h2, fun i a ha => ?_⟩
  have := h3 i a ha
  rwa [Nat.zero_add] at this

/-- C4 witness: in a two-batch run with trigger id 7 where send `k` returns
id `k + 10`, the second batch message exists and replies to the id returned
for the first batch. -/
theorem deliverLoop_thread_linkage_witness :
    (deliverLoop 7 (fun k => some (k + 10)) [[wRow], [wRow]] 7 0)[0 + 1]? =
      some (BotAction.batchMsg 7 10 (plainBody [wRow]) (htmlBody [wRow]) [wRow]) ∧
    (BotAction.batchMsg 7 10 (plainBody [wRow]) (htmlBody [wRow]) [wRow]).replyTo? =
      (fun k => some (k + 10)) 0 :=
  ⟨by decide,
   (deliverLoop_thread_linkage 7 (fun k => some (k + 10)) [[wRow], [wRow]]).2.2 0
     (BotAction.batchMsg 7 10 (plainBody [wRow]) (htmlBody [wRow]) [wRow]) (by decide)⟩

/-! ### Claim C5: no sends after a failed send -/

/-- Halting behaviour of the delivery loop, generalised over the seed reply
target and send counter. -/
theorem deliverLoop_halt_aux (root : Nat) (orc : Nat → Option Nat)
    (batches : List (List resultRow)) : ∀ (prev k : Nat),
    (∀ j, orc (k + j) = none → (deliverLoop root orc batches prev k).length ≤ j + 1) ∧
    (∀ (i : Nat) (a : BotAction), (deliverLoop root orc batches prev k)[i]? = some a →
      a.rows? = batches[i]?) := by
  induction batches with
  | nil =>
    intro prev k
    exact ⟨by simp [deliverLoop], by simp [deliverLoop]⟩
  | cons b bs ih =>
    intro prev k
    constructor
    · intro j hj
      cases j with
      | zero =>
        rw [Nat.add_zero] at hj
        simp [deliverLoop, hj]
      | succ j' =>
        cases horc : orc k with
        | none =>
          simp only [deliverLoop, horc, List.length_cons, List.length_nil]
          omega
        | some mid =>
          simp only [deliverLoop, horc, List.length_cons]
          have := (ih mid (k + 1)).1 j' (by rw [show k + 1 + j' = k + (j' + 1) by omega]; exact hj)
          omega
    · intro i a ha
      cases i with
      | zero =>
        simp only [deliverLoop, List.getElem?_cons_zero, Option.some.injEq] at ha
        rw [← ha, List.getElem?_cons_zero]
        rfl
      | succ j =>
        simp only [deliverLoop, List.getElem?_cons_succ] at ha
        cases horc : orc k with
        | none =>
          rw [horc] at ha
          simp at ha
        | some mid =>
          rw [horc] at ha
          rw [List.getElem?_cons_succ]
          exact (ih mid (k + 1)).2 j a ha

/-- C5: if the `j`-th batch send fails, no batch message beyond the failed one
is ever sent (the trace stops at length `j + 1`), the failed batch is not
retried and no later batch is sent: the `i`-th trace entry always carries
exactly the `i`-th batch. -/
theorem deliverLoop_stops_after_failure (root prev : Nat) (orc : Nat → Option Nat)
    (batches : List (List resultRow)) :
    (∀ j, orc j = none → (deliverLoop root orc batches prev 0).length ≤ j + 1) ∧
    (∀ (i : Nat) (a : BotAction), (deliverLoop root orc batches prev 0)[i]? = some a →
      a.rows? = batches[i]?) := by
  obtain ⟨h1, h2⟩ := deliverLoop_halt_aux root orc batches prev 0
  exact ⟨fun j hj => h1 j (by rwa [Nat.zero_add]), h2⟩

/-- C5 witness: with a transport whose every send fails, a two-batch run sends
only the first (failed) batch message. -/
theorem deliverLoop_stops_after_failure_witness :
    (fun (_ : Nat) => (none : Option Nat)) 0 = none ∧
    (deliverLoop 3 (fun _ => none) [[wRow], [wRow]] 3 0).length ≤ 0 + 1 :=
  ⟨rfl, (deliverLoop_stops_after_failure 3 3 (fun _ => none) [[wRow], [wRow]]).1 0 rfl⟩

/-! ### Claim C7: batch partitioning -/

/-- When every send succeeds, the delivery loop sends one message per batch. -/
theorem deliverLoop_length_all_success (root : Nat) (orc : Nat → Option Nat)
    (hs : ∀ i, (orc i).isSome = true) (batches : List (List resultRow)) :
    ∀ prev k, (deliverLoop root orc batches prev k).length = batches.length := by
  induction batches with
  | nil => intro prev k; rfl
  | cons b bs ih =>
    intro prev k
    cases horc : orc k with
    | none =>
      have := hs k
      rw [horc] at this
      simp at this
    | some mid =>
      simp [deliverLoop, horc, ih]

/-- The concatenation of the batches is the result list (order preserved). -/
theorem chunks_flatten (bS : Nat) (hb : 0 < bS) (l : List resultRow) :
    (chunks bS l).flatten = l := by
  have key : ∀ (n : Nat) (l : List resultRow), l.length ≤ n → (chunks bS l).flatten = l := by
    intro n
    induction n with
    | zero =>
      intro l hl
      have h0 : l = [] := List.length_eq_zero.mp (Nat.le_zero.mp hl)
      rw [h0, chunks_nil]
      rfl
    | succ n ih =>
      intro l hl
      by_cases hemp : l = []
      · rw [hemp, chunks_nil]; rfl
      · rw [chunks_cons bS hb l hemp, List.flatten_cons,
          ih (l.drop bS) (by rw [List.length_drop]; have := List.length_pos.mpr hemp; omega)]
        exact List.take_append_drop bS l
  exact key l.length l le_rfl

/-- Every batch is non-empty and holds at most `batchSize` records. -/
theorem chunks_mem (bS : Nat) (hb : 0 < bS) (l : List resultRow) :
    ∀ b ∈ chunks bS l, b ≠ [] ∧ b.length ≤ bS := by
  have key : ∀ (n : Nat) (l : List resultRow), l.length ≤ n →
      ∀ b ∈ chunks bS l, b ≠ [] ∧ b.length ≤ bS := by
    intro n
    induction n with
    | zero =>
      intro l hl b hbmem
      have h0 : l = [] := List.length_eq_zero.mp (Nat.le_zero.mp hl)
      rw [h0, chunks_nil] at hbmem
      simp at hbmem
    | succ n ih =>
      intro l hl b hbmem
      by_cases hemp : l = []
      · rw [hemp, chunks_nil] at hbmem
        simp at hbmem
      · rw [chunks_cons bS hb l hemp] at hbmem
        rcases List.mem_cons.mp hbmem with h | h
        · subst h
          refine ⟨?_, List.length_take_le bS l⟩
          intro hc
          have hlen := congrArg List.length hc
          rw [List.length_take] at hlen
          have hlpos : 0 < l.length := List.length_pos.mpr hemp
          simp only [List.length_nil] at hlen
          have : min bS l.length = 0 := hlen
          omega
        · exact ih (l.drop bS)
            (by rw [List.length_drop]; have := List.length_pos.mpr hemp; omega) b h
  exact key l.length l le_rfl

/-- A result list of exactly `2 * batchSize` records splits into two full batches. -/
theorem chunks_two_full (bS : Nat) (hb : 0 < bS) (l : List resultRow)
    (hl : l.length = 2 * bS) :
    (chunks bS l).map List.length = [bS, bS] := by
  have h1 : l ≠ [] := by
    intro hc
    rw [hc] at hl
    simp at hl
    omega
  have hd1 : (l.drop bS).length = bS := by rw [List.length_drop]; omega
  have h2 : l.drop bS ≠ [] := by
    intro hc
    rw [hc] at hd1
    simp at hd1
    omega
  have h3 : (l.drop bS).drop bS = [] :=
    List.length_eq_zero.mp (by rw [List.length_drop, List.length_drop]; omega)
  rw [chunks_cons bS hb l h1, chunks_cons bS hb _ h2, h3, chunks_nil]
  simp only [List.map_cons, List.map_nil, List.length_take, hl, hd1]
  have e1 : min bS (2 * bS) = bS := by omega
  have e2 : min bS bS = bS := by omega
  rw [e1, e2]

/-- A result list of `batchSize + 1` records splits into a full batch and a
singleton batch. -/
theorem chunks_one_over (bS : Nat) (hb : 0 < bS) (l : List resultRow)
    (hl : l.length = bS + 1) :
    (chunks bS l).map List.length = [bS, 1] := by
  have h1 : l ≠ [] := by
    intro hc
    rw [hc] at hl
    simp at hl
  have hd1 : (l.drop bS).length = 1 := by rw [List.length_drop]; omega
  have h2 : l.drop bS ≠ [] := by
    intro hc
    rw [hc] at hd1
    simp at hd1
  have h3 : (l.drop bS).drop bS = [] :=
    List.length_eq_zero.mp (by rw [List.length_drop, List.length_drop]; omega)
  rw [chunks_cons bS hb l h1, chunks_cons bS hb _ h2, h3, chunks_nil]
  simp only [List.map_cons, List.map_nil, List.length_take, hl, hd1]
  have e1 : min bS (bS + 1) = bS := by omega
  have e2 : min bS 1 = 1 := by omega
  rw [e1, e2]

/-- C7: delivery partitions the result list into consecutive, order-preserving,
non-empty batches of at most `batchSize` records, sending one message per batch
when every send succeeds; a list of `2 * batchSize` records gives exactly two
batches of `batchSize` each, and a list of `batchSize + 1` records gives two
batches of sizes `batchSize` and `1`. -/
theorem delivery_batch_partition (bS : Nat) (hb : 0 < bS) (l : List resultRow)
    (root : Nat) (orc : Nat → Option Nat) (hs : ∀ i, (orc i).isSome = true) :
    ((chunks bS l).flatten = l) ∧
    (∀ b ∈ chunks bS l, b ≠ [] ∧ b.length ≤ bS) ∧
    (l.length = 2 * bS → (chunks bS l).map List.length = [bS, bS]) ∧
    (l.length = bS + 1 → (chunks bS l).map List.length = [bS, 1]) ∧
    ((deliverLoop root orc (chunks bS l) root 0).length = (chunks bS l).length) :=
  ⟨chunks_flatten bS hb l, chunks_mem bS hb l,
   fun hl => chunks_two_full bS hb l hl,
   fun hl => chunks_one_over bS hb l hl,
   deliverLoop_length_all_success root orc hs (chunks bS l) root 0⟩

/-- C7 witness: with `batchSize = 2`, three records are delivered as two
batches of sizes 2 and 1. -/
theorem delivery_batch_partition_witness :
    (0 < 2 ∧ [wRow, wRow, wRow].length = 2 + 1) ∧
    (chunks 2 [wRow, wRow, wRow]).map List.length = [2, 1] :=
  ⟨⟨by decide, by decide⟩,
   (delivery_batch_partition 2 (by decide) [wRow, wRow, wRow] 0
     (fun i => some (i + 1)) (fun i => rfl)).2.2.2.1 (by decide)⟩

/-! ### Claim C1: overflow boundary and the reported count -/

/-- C1 counterexample: with `maxResults = 1` and a catalog of 3 matching
records, the overflow reply reports the capped fetch size 2, not the true
match count 3. -/
theorem roms_overflow_reports_capped_count :
    romsCommand 1 100 [wRow, wRow, wRow] [] [] 0 (fun _ => none) =
      [BotAction.reaction 0 rejectKey, BotAction.replyMsg 0 "Too many results: 2"] ∧
    ([wRow, wRow, wRow].filter (matchesRow [] [])).length = 3 ∧
    "Too many results: 2" ≠ "Too many results: 3" :=
  ⟨by decide, by decide, by decide⟩

/-- C1 (amended): a query matching exactly `maxResults` records takes the
success path (success reaction, then the batch loop); a query matching more
than `maxResults` records takes the overflow path, whose reply reports
`min (maxResults + 1) (true match count)` — the capped fetch size, which equals
the true count only when at most `maxResults + 1` records match. -/
theorem roms_overflow_boundary (mR bS : Nat) (catalog : List resultRow)
    (pos neg : List String) (eid : Nat) (orc : Nat → Option Nat) :
    ((catalog.filter (matchesRow pos neg)).length = mR →
      romsCommand mR bS catalog pos neg eid orc =
        BotAction.reaction eid okKey ::
          deliverLoop eid orc (chunks bS (sortRows (runQuery catalog pos neg mR))) eid 0) ∧
    (mR < (catalog.filter (matchesRow pos neg)).length →
      romsCommand mR bS catalog pos neg eid orc =
        [BotAction.reaction eid rejectKey,
         BotAction.replyMsg eid ("Too many results: " ++
           toString (min (mR + 1) ((catalog.filter (matchesRow pos neg)).length)))]) := by
  have hlen : (sortRows (runQuery catalog pos neg mR)).length =
      min (mR + 1) ((catalog.filter (matchesRow pos neg)).length) := by
    rw [sortRows_length, runQuery_length]
  constructor
  · intro h
    show deliverActions mR bS (sortRows (runQuery catalog pos neg mR)) eid orc = _
    unfold deliverActions
    rw [if_neg ?_]
    rw [hlen, h]
    omega
  · intro h
    show deliverActions mR bS (sortRows (runQuery catalog pos neg mR)) eid orc = _
    unfold deliverActions
    rw [if_pos ?_, hlen]
    rw [hlen]
    omega

/-- C1 witness: with `maxResults = 2` and a catalog of exactly 2 matching
records, the success path is taken; with `maxResults = 1` and 3 matching
records, the overflow path is taken with the reported count `min 2 3 = 2`. -/
theorem roms_overflow_boundary_witness :
    (([wRow, wRow].filter (matchesRow [] [])).length = 2 ∧
      romsCommand 2 100 [wRow, wRow] [] [] 0 (fun k => some (k + 10)) =
        BotAction.reaction 0 okKey ::
          deliverLoop 0 (fun k => some (k + 10))
            (chunks 100 (sortRows (runQuery [wRow, wRow] [] [] 2))) 0 0) ∧
    (1 < ([wRow, wRow, wRow].filter (matchesRow [] [])).length ∧
      romsCommand 1 100 [wRow, wRow, wRow] [] [] 1 (fun k => some (k + 10)) =
        [BotAction.reaction 1 rejectKey,
         BotAction.replyMsg 1 ("Too many results: " ++
           toString (min (1 + 1) (([wRow, wRow, wRow].filter (matchesRow [] [])).length)))]) :=
  ⟨⟨by decide,
    (roms_overflow_boundary 2 100 [wRow, wRow] [] [] 0 (fun k => some (k + 10))).1 (by decide)⟩,
   ⟨by decide,
    (roms_overflow_boundary 1 100 [wRow, wRow, wRow] [] [] 1 (fun k => some (k + 10))).2
      (by decide)⟩⟩

/-! ### Claim C8: sorting invariant -/

/-- The structural comparison agrees with the standard codepoint-lexicographic
order on character lists. -/
theorem charsLt_iff : ∀ (l1 l2 : List Char), charsLt l1 l2 = true ↔ List.lt l1 l2 := by
  intro l1
  induction l1 with
  | nil =>
    intro l2
    cases l2 with
    | nil =>
      simp only [charsLt, Bool.false_eq_true, false_iff]
      nofun
    | cons b bs =>
      simp only [charsLt, true_iff]
      exact List.lt.nil b bs
  | cons a as ih =>
    intro l2
    cases l2 with
    | nil =>
      simp only [charsLt, Bool.false_eq_true, false_iff]
      nofun
    | cons b bs =>
      simp only [charsLt]
      by_cases hab : a < b
      · simp only [if_pos hab, true_iff]
        exact List.lt.head as bs hab
      · by_cases hba : b < a
        · simp only [if_neg hab, if_pos hba, Bool.false_eq_true, false_iff]
          intro h
          cases h with
          | head _ _ h => exact hab h
          | tail h1 h2 h3 => exact h2 hba
        · simp only [if_neg hab, if_neg hba, ih bs]
          constructor
          · exact fun h => List.lt.tail hab hba h
          · intro h
            cases h with
            | head _ _ h => exact absurd h hab
            | tail h1 h2 h3 => exact h3

/-- The structural comparison agrees with the standard string order. -/
theorem strLt_iff (s t : String) : strLt s t = true ↔ s < t := by
  rw [String.lt_iff_toList_lt]
  have h2 : (s.toList < t.toList) ↔ List.Lex (· < ·) s.data t.data := Iff.rfl
  rw [h2, ← List.lt_iff_lex_lt]
  exact charsLt_iff s.data t.data

/-- The strict lexicographic order on the `(section, console, file)` triple. -/
def lexLt (a b : resultRow) : Prop :=
  a.Section < b.Section ∨ (a.Section = b.Section ∧
    (a.Console < b.Console ∨ (a.Console = b.Console ∧ a.File < b.File)))

/-- The comparator decides exactly the strict lexicographic triple order. -/
theorem rowLt_iff (a b : resultRow) : rowLt a b = true ↔ lexLt a b := by
  unfold rowLt lexLt
  by_cases hS : a.Section = b.Section
  · rw [if_neg (by simp [hS])]
    by_cases hC : a.Console = b.Console
    · rw [if_neg (by simp [hC])]
      simp [hS, hC, lt_irrefl, strLt_iff]
    · rw [if_pos hC]
      simp [hS, hC, lt_irrefl, strLt_iff]
  · rw [if_pos hS]
    constructor
    · intro h
      exact Or.inl ((strLt_iff _ _).mp h)
    · intro h
      rcases h with h | h
      · exact (strLt_iff _ _).mpr h
      · exact absurd h.1 hS

/-- The strict triple order is transitive. -/
theorem lexLt_trans {a b c : resultRow} (h1 : lexLt a b) (h2 : lexLt b c) : lexLt a c := by
  rcases h1 with h1 | ⟨e1, h1⟩
  · rcases h2 with h2 | ⟨e2, h2⟩
    · exact Or.inl (lt_trans h1 h2)
    · exact Or.inl (e2 ▸ h1)
  · rcases h2 with h2 | ⟨e2, h2⟩
    · exact Or.inl (e1 ▸ h2)
    · refine Or.inr ⟨e1.trans e2, ?_⟩
      rcases h1 with h1 | ⟨f1, h1⟩
      · rcases h2 with h2 | ⟨f2, h2⟩
        · exact Or.inl (lt_trans h1 h2)
        · exact Or.inl (f2 ▸ h1)
      · rcases h2 with h2 | ⟨f2, h2⟩
        · exact Or.inl (f1 ▸ h2)
        · exact Or.inr ⟨f1.trans f2, lt_trans h1 h2⟩

/-- The strict triple order is asymmetric. -/
theorem lexLt_asymm {a b : resultRow} (h1 : lexLt a b) (h2 : lexLt b a) : False := by
  rcases h1 with h1 | ⟨e1, h1⟩
  · rcases h2 with h2 | ⟨e2, h2⟩
    · exact lt_asymm h1 h2
    · exact absurd (e2 ▸ h1) (lt_irrefl _)
  · rcases h2 with h2 | ⟨e2, h2⟩
    · exact absurd (e1 ▸ h2) (lt_irrefl _)
    · rcases h1 with h1 | ⟨f1, h1⟩
      · rcases h2 with h2 | ⟨f2, h2⟩
        · exact lt_asymm h1 h2
        · exact absurd (f2 ▸ h1) (lt_irrefl _)
      · rcases h2 with h2 | ⟨f2, h2⟩
        · exact absurd (f1 ▸ h2) (lt_irrefl _)
        · exact lt_asymm h1 h2

/-- Trichotomy for the strict triple order. -/
theorem lexLt_trichotomy (a b : resultRow) :
    lexLt a b ∨ lexLt b a ∨
      (a.Section = b.Section ∧ a.Console = b.Console ∧ a.File = b.File) := by
  rcases lt_trichotomy a.Section b.Section with h | h | h
  · exact Or.inl (Or.inl h)
  · rcases lt_trichotomy a.Console b.Console with h2 | h2 | h2
    · exact Or.inl (Or.inr ⟨h, Or.inl h2⟩)
    · rcases lt_trichotomy a.File b.File with h3 | h3 | h3
      · exact Or.inl (Or.inr ⟨h, Or.inr ⟨h2, h3⟩⟩)
      · exact Or.inr (Or.inr ⟨h, h2, h3⟩)
      · exact Or.inr (Or.inl (Or.inr ⟨h.symm, Or.inr ⟨h2.symm, h3⟩⟩))
    · exact Or.inr (Or.inl (Or.inr ⟨h.symm, Or.inl h2⟩))
  · exact Or.inr (Or.inl (Or.inl h))

/-- The components of `lexLt` respect component-wise equality on the left. -/
theorem lexLt_congr_right {a b c : resultRow}
    (e : a.Section = b.Section ∧ a.Console = b.Console ∧ a.File = b.File) :
    lexLt c a ↔ lexLt c b := by
  unfold lexLt
  rw [e.1, e.2.1, e.2.2]

/-- `rowLe` is total. -/
theorem rowLe_total (a b : resultRow) : RowLe a b ∨ RowLe b a := by
  unfold RowLe rowLe
  by_cases h : rowLt b a = true
  · right
    have : ¬ lexLt a b := fun hc => lexLt_asymm hc ((rowLt_iff b a).mp h)
    have h2 : rowLt a b = false := by
      cases hr : rowLt a b
      · rfl
      · exact absurd ((rowLt_iff a b).mp hr) this
    rw [h2]
    rfl
  · left
    rw [Bool.not_eq_true] at h
    rw [h]
    rfl

/-- `rowLe` is transitive. -/
theorem rowLe_trans {a b c : resultRow} (h1 : RowLe a b) (h2 : RowLe b c) : RowLe a c := by
  unfold RowLe rowLe at *
  rw [Bool.not_eq_true'] at h1 h2 ⊢
  cases hr : rowLt c a
  · rfl
  · exfalso
    have hca : lexLt c a := (rowLt_iff c a).mp hr
    have hnb : ¬ lexLt b a := fun hc => by rw [(rowLt_iff b a).mpr hc] at h1; exact Bool.noConfusion h1
    have hnc : ¬ lexLt c b := fun hc => by rw [(rowLt_iff c b).mpr hc] at h2; exact Bool.noConfusion h2
    rcases lexLt_trichotomy a b with h | h | h
    · exact hnc (lexLt_trans hca h)
    · exact hnb h
    · exact hnc ((lexLt_congr_right h).mp hca)

instance : IsTotal resultRow RowLe := ⟨rowLe_total⟩

instance : IsTrans resultRow RowLe := ⟨fun _ _ _ => rowLe_trans⟩

/-- C8: in the result list as materialised before delivery, every pair of
consecutive records is in non-decreasing lexicographic order on the triple
`(section, console, file)` under codepoint string comparison. -/
theorem sortRows_sorted_lex (rows : List resultRow) :
    (sortRows rows).Chain' (fun a b =>
      a.Section < b.Section ∨ (a.Section = b.Section ∧
        (a.Console < b.Console ∨ (a.Console = b.Console ∧
          (a.File < b.File ∨ a.File = b.File))))) := by
  have hs : List.Sorted RowLe (sortRows rows) := List.sorted_insertionSort RowLe rows
  refine List.Chain'.imp ?_ hs.chain'
  intro a b hab
  have hfalse : rowLt b a = false := by
    unfold RowLe rowLe at hab
    rwa [Bool.not_eq_true'] at hab
  have hnlt : ¬ lexLt b a := fun hc => by
    rw [(rowLt_iff b a).mpr hc] at hfalse
    exact Bool.noConfusion hfalse
  rcases lexLt_trichotomy a b with h | h | h
  · rcases h with h | ⟨e, h⟩
    · exact Or.inl h
    · rcases h with h | ⟨e2, h⟩
      · exact Or.inr ⟨e, Or.inl h⟩
      · exact Or.inr ⟨e, Or.inr ⟨e2, Or.inl h⟩⟩
  · exact absurd h hnlt
  · exact Or.inr ⟨h.1, Or.inr ⟨h.2.1, Or.inr h.2.2⟩⟩

/-! ### Claim C9: rendering and HTML escaping -/

/-- The per-character expansion never emits a raw `<`. -/
theorem escChar_count_lt (c : Char) : (escChar c).count '<' = 0 := by
  unfold escChar
  split_ifs with h1 h2 h3 h4 h5
  · decide
  · decide
  · decide
  · decide
  · decide
  · simp [List.count_cons, List.count_nil, h2]

/-- The per-character expansion never emits a raw double quote. -/
theorem escChar_count_quot (c : Char) : (escChar c).count dquote = 0 := by
  unfold escChar
  split_ifs with h1 h2 h3 h4 h5
  · decide
  · decide
  · decide
  · decide
  · decide
  · simp [List.count_cons, List.count_nil, h4]

/-- The per-character expansion emits exactly one `&` for each escaped
character and none otherwise. -/
theorem escChar_count_amp (c : Char) :
    (escChar c).count '&' =
      (if (c == '&' || c == '<' || c == '>' || c == dquote || c == squote) = true
       then 1 else 0) := by
  by_cases h1 : c = '&'
  · subst h1; decide
  by_cases h2 : c = '<'
  · subst h2; decide
  by_cases h3 : c = '>'
  · subst h3; decide
  by_cases h4 : c = dquote
  · subst h4; decide
  by_cases h5 : c = squote
  · subst h5; decide
  unfold escChar
  rw [if_neg h1, if_neg h2, if_neg h3, if_neg h4, if_neg h5]
  simp [List.count_cons, List.count_nil, h1, h2, h3, h4, h5]

/-- The escaped form of a string contains no raw `<`. -/
theorem escapeList_count_lt (cs : List Char) : (escapeList cs).count '<' = 0 := by
  induction cs with
  | nil => rfl
  | cons c cs ih => simp [escapeList, List.count_append, escChar_count_lt, ih]

/-- The escaped form of a string contains no raw double quote. -/
theorem escapeList_count_quot (cs : List Char) : (escapeList cs).count dquote = 0 := by
  induction cs with
  | nil => rfl
  | cons c cs ih => simp [escapeList, List.count_append, escChar_count_quot, ih]

/-- Every `&` of the escaped form is the head of an entity: there is exactly
one per escaped source character. -/
theorem escapeList_count_amp (cs : List Char) :
    (escapeList cs).count '&' =
      cs.countP (fun c => c == '&' || c == '<' || c == '>' || c == dquote || c == squote) := by
  induction cs with
  | nil => rfl
  | cons c cs ih =>
    rw [escapeList, List.count_append, escChar_count_amp, List.countP_cons, ih]
    omega

/-- Decomposition of the HTML line into its literal and dynamic parts. -/
theorem htmlLine_data (r : resultRow) :
    (htmlLine r).data = (htmlEscape r.Section).data ++ " - ".data ++
      (htmlEscape r.Console).data ++ " - <a href=\"".data ++ r.Rawurl.data ++
      "\">".data ++ (htmlEscape r.File).data ++ "</a><br>".data := by
  simp [htmlLine, String.data_append]

/-- C9: the plain line carries all three fields verbatim (one
`section - console - file` line per record); in the HTML line the three
escaped fields contribute no raw `<` or `"` and turn every escapable character
into exactly one `&`-led entity, so the raw `<` and `"` of the HTML line are
the three and two of the fixed markup plus exactly those of the raw URL, which
is interpolated verbatim (unescaped) into the `href` attribute. -/
theorem render_escaping (r : resultRow) :
    (plainLine r = r.Section ++ " - " ++ r.Console ++ " - " ++ r.File ++ "\n") ∧
    (∀ s : String,
      (htmlEscape s).data.count '<' = 0 ∧
      (htmlEscape s).data.count dquote = 0 ∧
      (htmlEscape s).data.count '&' =
        s.data.countP (fun c => c == '&' || c == '<' || c == '>' || c == dquote || c == squote)) ∧
    (htmlEscape (String.mk ['a', '<', 'b', '&', 'c', dquote]) = "a&lt;b&amp;c&quot;") ∧
    ((htmlLine r).data.count '<' = 3 + r.Rawurl.data.count '<') ∧
    ((htmlLine r).data.count dquote = 2 + r.Rawurl.data.count dquote) ∧
    (r.Rawurl.data <:+: (htmlLine r).data) := by
  refine ⟨rfl, ?_, by decide, ?_, ?_, ?_⟩
  · intro s
    exact ⟨escapeList_count_lt s.data, escapeList_count_quot s.data, escapeList_count_amp s.data⟩
  · rw [htmlLine_data]
    simp only [List.count_append]
    have h1 : (htmlEscape r.Section).data.count '<' = 0 := escapeList_count_lt r.Section.data
    have h2 : (htmlEscape r.Console).data.count '<' = 0 := escapeList_count_lt r.Console.data
    have h3 : (htmlEscape r.File).data.count '<' = 0 := escapeList_count_lt r.File.data
    have e1 : (" - ").data.count '<' = 0 := by decide
    have e2 : (" - <a href=\"").data.count '<' = 1 := by decide
    have e3 : ("\">").data.count '<' = 0 := by decide
    have e4 : ("</a><br>").data.count '<' = 2 := by decide
    rw [h1, h2, h3, e1, e2, e3, e4]
    omega
  · rw [htmlLine_data]
    simp only [List.count_append]
    have h1 : (htmlEscape r.Section).data.count dquote = 0 := escapeList_count_quot r.Section.data
    have h2 : (htmlEscape r.Console).data.count dquote = 0 := escapeList_count_quot r.Console.data
    have h3 : (htmlEscape r.File).data.count dquote = 0 := escapeList_count_quot r.File.data
    have e1 : (" - ").data.count dquote = 0 := by decide
    have e2 : (" - <a href=\"").data.count dquote = 1 := by decide
    have e3 : ("\">").data.count dquote = 1 := by decide
    have e4 : ("</a><br>").data.count dquote = 0 := by decide
    rw [h1, h2, h3, e1, e2, e3, e4]
    omega
  · refine ⟨(htmlEscape r.Section).data ++ " - ".data ++ (htmlEscape r.Console).data ++
      " - <a href=\"".data,
      "\">".data ++ (htmlEscape r.File).data ++ "</a><br>".data, ?_⟩
    rw [htmlLine_data]
    simp [List.append_assoc]
